import Mathlib

/-!
Verification of the mDNS service-discovery core of arduino-mDNS-Query.

The development shallowly embeds the C++ sources `src/packet.cpp` and
`src/mdns.cpp`. Bytes are modelled as `Nat` values; every read of a packet
byte is normalised with `% 256` (the C `byte` type). C character buffers are
modelled as lists holding the full buffer content; a buffer write sequence
starting at index 0 is applied with `overlay`, and the value of a buffer as a
C string is `cstr` (the bytes before the first NUL). Loops whose C
counterparts iterate over packet positions are given explicit fuel; the fuel
chosen for `decodeDNSName` is proved sufficient (`decodeAux_isSome`), so the
embedding is total exactly like the C code. Offsets are `Nat` (the C
counters are 16-bit, and every caller in the firmware bounds packets by the
256-byte packet buffer, so no wrap-around is reachable).
-/

namespace MDNS

set_option maxRecDepth 100000

/-- Read a byte of a packet: out-of-range reads default to 0, and values are
normalised to the C `byte` range. -/
def bget (p : List Nat) (i : Nat) : Nat := p.getD i 0 % 256

/-- Value of a character buffer as a C string: the bytes before the first NUL. -/
def cstr (l : List Nat) : List Nat := l.takeWhile (fun b => b ≠ 0)

/-- Byte list of a Lean string literal (ASCII contents only are used). -/
def strBytes (s : String) : List Nat := s.data.map Char.toNat

/-- Consecutive bytes `p[off], p[off+1], ..., p[off+k-1]`, as read by a C copy
loop. -/
def readBytes (p : List Nat) : Nat → Nat → List Nat
  | _, 0 => []
  | off, k + 1 => bget p off :: readBytes p (off + 1) k

/-- Overwrite the front of buffer `old` with the byte sequence `w`, keeping
the rest of the buffer (sequential writes starting at index 0). -/
def overlay (old w : List Nat) : List Nat := w ++ old.drop w.length

/-- Split a C string on the dot character, as the scanning loop of
`encodeDomainName` does (always returns at least one segment). -/
def splitOnDot : List Nat → List (List Nat)
  | [] => [[]]
  | c :: rest =>
    if c = 46 then [] :: splitOnDot rest
    else
      match splitOnDot rest with
      | s :: ss => (c :: s) :: ss
      | [] => [[c]]

/-- Join labels with dot separators (inverse of `splitOnDot`). -/
def joinDots : List (List Nat) → List Nat
  | [] => []
  | [l] => l
  | l :: ls => l ++ 46 :: joinDots ls

/-- Label sequence of an encoded name as it appears on the wire: each label
as a length byte followed by its bytes. -/
def labelWire (L : List (List Nat)) : List Nat :=
  (L.map (fun l => l.length :: l)).flatten

/-- Drop a trailing empty label (the encoder silently skips an empty final
label, which arises from a trailing dot). -/
def dropEmptyFinal : List (List Nat) → List (List Nat)
  | [] => []
  | [l] => if l = [] then [] else [l]
  | l :: rest => l :: dropEmptyFinal rest

/-- Label-by-label emission loop of `encodeDomainName` (src/packet.cpp lines
46-96). `acc` holds the bytes emitted so far, so `acc.length` is the C
variable `pos`. The final label is treated specially exactly as in the
source: an empty final label is skipped, a non-final empty label is an
error. -/
def encGo (maxLen : Nat) : List (List Nat) → List Nat → Option (List Nat)
  | [], acc =>
      if maxLen ≤ acc.length then none else some (acc ++ [0])
  | [last], acc =>
      if last.length = 0 then
        if maxLen ≤ acc.length then none else some (acc ++ [0])
      else if 63 < last.length then none
      else if maxLen ≤ acc.length + last.length + 2 then none
      else some (acc ++ last.length :: last ++ [0])
  | l :: l2 :: rest, acc =>
      if l.length = 0 ∨ 63 < l.length then none
      else if maxLen ≤ acc.length + l.length + 1 then none
      else encGo maxLen (l2 :: rest) (acc ++ l.length :: l)

/-- Embedding of `encodeDomainName` (src/packet.cpp lines 37-97): returns the
emitted wire bytes, whose length is the C return value; `none` is the C error
return 0. -/
def encodeDomainName (name : List Nat) (maxLen : Nat) : Option (List Nat) :=
  if maxLen < 2 then none else encGo maxLen (splitOnDot name) []

/-- Result of `decodeDNSName`: the C return value, the bytes written into the
output buffer (in order, starting at buffer index 0), and the value stored in
the out-parameter `nextOffset` when the function assigned it. -/
structure DecodeOut where
  ok : Bool
  written : List Nat
  next : Option Nat
deriving DecidableEq, Repr

/-- Dot-separator step of the decoder loop (src/packet.cpp lines 204-206):
a dot is appended before every label except the first, when there is room. -/
def dotAcc (nml : Nat) (acc : List Nat) : List Nat :=
  if 0 < acc.length ∧ acc.length + 1 < nml then acc ++ [46] else acc

/-- Main loop of `decodeDNSName` (src/packet.cpp lines 160-223). `acc` holds
the bytes written to `name` so far, so `acc.length` is the C variable
`namePos`; `jumps`, `jumped` and `nxt` track the pointer-chase state. Fuel
decreases once per loop iteration; `decodeAux_isSome` below shows the fuel
used by `decodeDNSName` never runs out. -/
def decodeAux (p : List Nat) (ps nml : Nat) :
    Nat → Nat → Nat → Bool → List Nat → Option Nat → Option DecodeOut
  | 0, _, _, _, _, _ => none
  | fuel + 1, pos, jumps, jumped, acc, nxt =>
    if pos < ps ∧ acc.length + 1 < nml then
      let len := bget p pos
      if len = 0 then
        some ⟨true, acc ++ [0], if jumped then nxt else some (pos + 1)⟩
      else if 192 ≤ len then
        if ps ≤ pos + 1 then some ⟨false, acc, nxt⟩
        else
          let ptr := len % 64 * 256 + bget p (pos + 1)
          let nxt2 := if jumped then nxt else some (pos + 2)
          if 10 ≤ jumps then some ⟨false, acc, nxt2⟩
          else if ps ≤ ptr then some ⟨false, acc, nxt2⟩
          else decodeAux p ps nml fuel ptr (jumps + 1) true acc nxt2
      else if 63 < len then some ⟨false, acc, nxt⟩
      else
        let acc1 := dotAcc nml acc
        if ps < pos + 1 + len then some ⟨false, acc1, nxt⟩
        else
          let k := min len (nml - 1 - acc1.length)
          decodeAux p ps nml fuel (pos + 1 + k) jumps jumped
            (acc1 ++ readBytes p (pos + 1) k) nxt
    else
      some ⟨true, acc ++ [0], if jumped then nxt else some pos⟩

/-- Fuel budget for one `decodeDNSName` call; proved sufficient below. -/
def decodeFuel (ps : Nat) : Nat := 11 * ps + 12

/-- Embedding of `decodeDNSName` (src/packet.cpp lines 147-224). -/
def decodeDNSName (p : List Nat) (ps offset nml : Nat) : Option DecodeOut :=
  if ps ≤ offset then some ⟨false, [], none⟩
  else decodeAux p ps nml (decodeFuel ps) offset 0 false [] none

/-- Embedding of `buildMDNSQuery` (src/packet.cpp lines 99-145): the produced
datagram bytes, whose length is the C return value. `tid` is the static
`queryTransactionID`. -/
def buildMDNSQuery (tid maxLen : Nat) (serviceName : List Nat) : Option (List Nat) :=
  if maxLen < 30 then none
  else
    match encodeDomainName serviceName (maxLen - 12) with
    | none => none
    | some enc =>
      if maxLen < 12 + enc.length + 4 then none
      else some ([tid / 256 % 256, tid % 256, 0, 0, 0, 1, 0, 0, 0, 0, 0, 0]
        ++ enc ++ [0, 12, 0, 1])

/-- Embedding of `buildServiceName` (src/packet.cpp lines 23-35) at the
configured values CONFIG_MDNS_SERVICE_TYPE = "config", CONFIG_MDNS_PROTOCOL =
"tcp", CONFIG_MDNS_DOMAIN = "local". -/
def buildServiceName (maxLen : Nat) : Option (List Nat) :=
  let s := strBytes "_config._tcp.local"
  if maxLen ≤ s.length then none else some s

/-- The persistent `DiscoveredConfig` struct of src/mdns.cpp. Character
arrays hold their full buffer contents (hostname 128, path 64, version 16,
ipStr 16 bytes). -/
structure DiscoveredConfig where
  hostname : List Nat
  port : Nat
  path : List Nat
  version : List Nat
  ipAddress : Nat
  ipStr : List Nat
  valid : Bool
deriving DecidableEq, Repr

/-- The zero-initialised `discoveredConfig` static (src/mdns.cpp line 19). -/
def initConfig : DiscoveredConfig :=
  ⟨List.replicate 128 0, 0, List.replicate 64 0, List.replicate 16 0, 0,
    List.replicate 16 0, false⟩

/-- Decimal digit string of a number, as produced by printf-style formatting
of non-negative values. -/
def decStrAux : Nat → Nat → List Nat
  | 0, n => [48 + n % 10]
  | fuel + 1, n => if n < 10 then [48 + n] else decStrAux fuel (n / 10) ++ [48 + n % 10]

/-- Decimal ASCII representation of a number. -/
def decStr (n : Nat) : List Nat := decStrAux n n

/-- Embedding of `parseSRVRecord` (src/mdns.cpp lines 77-102). Returns the C
return value, the new hostname buffer and the new port value; the port
reference is assigned before the hostname decode, so it is updated even when
the target-name decode fails. -/
def parseSRVRecord (p : List Nat) (ps off len : Nat) (host : List Nat) (port : Nat) :
    Bool × List Nat × Nat :=
  if len < 6 then (false, host, port)
  else
    let port2 := bget p (off + 4) * 256 + bget p (off + 5)
    match decodeDNSName p ps (off + 6) 128 with
    | none => (false, host, port2)
    | some out => (out.ok, overlay host out.written, port2)

/-- String-scanning loop of `parseTXTRecord` (src/mdns.cpp lines 120-147).
Each character-string is copied into a local 128-byte buffer; a `path=` match
overwrites the 64-byte path buffer via strncpy (NUL-padded), `version=` the
16-byte version buffer. -/
def parseTXTGo (p : List Nat) (endPos : Nat) :
    Nat → Nat → List Nat → List Nat → List Nat × List Nat
  | 0, _, path, ver => (path, ver)
  | fuel + 1, pos, path, ver =>
    if pos < endPos then
      let sl := bget p pos
      if sl = 0 then (path, ver)
      else
        let k := min sl (min (endPos - (pos + 1)) 127)
        let t := cstr (readBytes p (pos + 1) k)
        let path2 :=
          if t.take 5 = strBytes "path=" then
            let x := (t.drop 5).take 63
            x ++ List.replicate (64 - x.length) 0
          else path
        let ver2 :=
          if t.take 8 = strBytes "version=" then
            let x := (t.drop 8).take 15
            x ++ List.replicate (16 - x.length) 0
          else ver
        parseTXTGo p endPos fuel (pos + 1 + k) path2 ver2
    else (path, ver)

/-- Embedding of `parseTXTRecord` (src/mdns.cpp lines 107-150), returning the
new path and version buffers. -/
def parseTXTRecord (p : List Nat) (off len : Nat) (path ver : List Nat) :
    List Nat × List Nat :=
  if len = 0 ∨ 512 < len then (path, ver)
  else parseTXTGo p (off + len) len off path ver

/-- Embedding of `parseARecord` (src/mdns.cpp lines 155-173): the 32-bit
address and the new ipStr buffer (snprintf writes the dotted string and a
NUL, leaving the rest of the 16-byte buffer unchanged). -/
def parseARecord (p : List Nat) (off : Nat) (ipStrOld : List Nat) : Nat × List Nat :=
  let ip := bget p off * 16777216 + bget p (off + 1) * 65536 +
    bget p (off + 2) * 256 + bget p (off + 3)
  let s := (decStr (bget p off) ++ 46 :: decStr (bget p (off + 1)) ++
    46 :: decStr (bget p (off + 2)) ++ 46 :: decStr (bget p (off + 3))).take 15
  (ip, overlay ipStrOld (s ++ [0]))

/-- Answer-walk loop of `parseAnswerRecords` (src/mdns.cpp lines 184-248),
recursing on the number of records still to process. Returns false exactly on
the walk-aborting error paths; the natural loop exits return true and the
accumulated configuration. -/
def parseAnswerLoop (p : List Nat) (ps : Nat) :
    Nat → Nat → DiscoveredConfig → Bool × DiscoveredConfig
  | 0, _, cfg => (true, cfg)
  | rem + 1, pos, cfg =>
    if pos < ps then
      match decodeDNSName p ps pos 128 with
      | none => (false, cfg)
      | some d =>
        if d.ok = false then (false, cfg)
        else
          match d.next with
          | none => (false, cfg)
          | some pos1 =>
            if ps < pos1 + 10 then (false, cfg)
            else
              let rtype := bget p pos1 * 256 + bget p (pos1 + 1)
              let dlen := bget p (pos1 + 8) * 256 + bget p (pos1 + 9)
              let pos2 := pos1 + 10
              if ps < pos2 + dlen then (false, cfg)
              else
                let cfg2 :=
                  if rtype = 33 then
                    let r := parseSRVRecord p ps pos2 dlen cfg.hostname cfg.port
                    { cfg with hostname := r.2.1, port := r.2.2 }
                  else if rtype = 16 then
                    let r := parseTXTRecord p pos2 dlen cfg.path cfg.version
                    { cfg with path := r.1, version := r.2 }
                  else if rtype = 1 ∧ dlen = 4 then
                    let r := parseARecord p pos2 cfg.ipStr
                    { cfg with ipAddress := r.1, ipStr := r.2 }
                  else cfg
                parseAnswerLoop p ps rem (pos2 + dlen) cfg2
    else (true, cfg)

/-- Embedding of `parseAnswerRecords` (src/mdns.cpp lines 178-259): the walk
followed by the required-fields validation that sets the valid flag. -/
def parseAnswerRecords (p : List Nat) (ps questionPos ancount : Nat)
    (cfg : DiscoveredConfig) : Bool × DiscoveredConfig :=
  match parseAnswerLoop p ps ancount questionPos cfg with
  | (false, cfg2) => (false, cfg2)
  | (true, cfg2) =>
    if 0 < cfg2.port ∧ cfg2.path.getD 0 0 ≠ 0 ∧ cfg2.ipStr.getD 0 0 ≠ 0 then
      (true, { cfg2 with valid := true })
    else (false, cfg2)

/-- Embedding of `buildConfigURL` (src/mdns.cpp lines 264-283): the URL bytes
written on success. -/
def buildConfigURL (c : DiscoveredConfig) : Option (List Nat) :=
  if c.valid = false ∨ c.ipStr.getD 0 0 = 0 ∨ c.path.getD 0 0 = 0 then none
  else
    let s := strBytes "http://" ++ cstr c.ipStr ++ 58 :: decStr c.port ++ cstr c.path
    if 256 ≤ s.length then none else some s

/-- Name-extraction loop of `validateResponseService` (src/mdns.cpp lines
40-61): a simplified inline decoder that stops at the first compression
pointer and truncates at the 128-byte local buffer. `acc` is the content
written before the terminating NUL. -/
def vLoop (p : List Nat) (ps : Nat) : Nat → Nat → List Nat → List Nat
  | 0, _, acc => acc
  | fuel + 1, pos, acc =>
    if pos < ps ∧ acc.length < 127 then
      let len := bget p pos
      if len = 0 then acc
      else if 192 ≤ len then acc
      else
        let acc1 := if 0 < acc.length then acc ++ [46] else acc
        let k := min len (min (ps - (pos + 1)) (127 - acc1.length))
        vLoop p ps fuel (pos + 1 + k) (acc1 ++ readBytes p (pos + 1) k)
    else acc

/-- Question name a received packet is judged by: the C string produced by
the inline decoder of `validateResponseService` starting at offset 12. -/
def questionName (p : List Nat) (ps : Nat) : List Nat :=
  cstr (vLoop p ps ps 12 [])

/-- Embedding of `validateResponseService` (src/mdns.cpp lines 29-72): the
decoded question name must equal the stored `lastRequestedService` string. -/
def validateResponseService (p : List Nat) (ps : Nat) (svc : List Nat) : Bool :=
  if ps < 14 then false
  else questionName p ps == cstr svc

/-- Question-section skip loop of `handleMDNSResponse` (src/mdns.cpp lines
356-369). -/
def qSkip (p : List Nat) (ps : Nat) : Nat → Nat → Nat
  | 0, pos => pos
  | fuel + 1, pos =>
    if pos < ps then
      let len := bget p pos
      if len = 0 then pos + 1
      else if 192 ≤ len then pos + 2
      else qSkip p ps fuel (pos + 1 + len)
    else pos

/-- Embedding of `handleMDNSResponse` (src/mdns.cpp lines 321-382) acting on
the stored service name and the persistent configuration. `dgram` is the
received datagram (`packetSize` in C is its length); the UDP read delivers at
most the 256-byte packet buffer. Returns the new configuration and the URL
synthesised on a successful parse (the C code builds it into a local buffer).
-/
def handleMDNSResponse (svc : List Nat) (cfg : DiscoveredConfig) (dgram : List Nat) :
    DiscoveredConfig × Option (List Nat) :=
  if dgram.length < 12 then (cfg, none)
  else
    let p := dgram.take 256
    let ps := p.length
    if ps < 12 then (cfg, none)
    else if validateResponseService p ps svc = false then (cfg, none)
    else
      let flags := bget p 2 * 256 + bget p 3
      let ancount := bget p 6 * 256 + bget p 7
      if flags < 32768 then (cfg, none)
      else if ancount = 0 then (cfg, none)
      else
        let qPos := qSkip p ps ps 12 + 4
        if qPos < ps then
          match parseAnswerRecords p ps qPos ancount cfg with
          | (true, cfg2) => (cfg2, buildConfigURL cfg2)
          | (false, cfg2) => (cfg2, none)
        else (cfg, none)

/-- The static state of src/mdns.cpp and src/packet.cpp that the discovery
operations touch: the rolling transaction id, the service name of the last
sent query, and the persistent discovered configuration. -/
structure MDNSState where
  queryTransactionID : Nat
  lastRequestedService : List Nat
  discoveredConfig : DiscoveredConfig
deriving DecidableEq, Repr

/-- Startup state: `queryTransactionID = 0x1234`, empty service name,
invalid configuration (src/packet.cpp line 17, src/mdns.cpp lines 18-19). -/
def initState : MDNSState := ⟨0x1234, [], initConfig⟩

/-- Embedding of `sendMDNSQuery` (src/mdns.cpp lines 289-319) with the UDP
send assumed delivered: builds the service name and query packet, records the
service name (strncpy capped at 127 bytes), and returns the sent datagram.
Note the source never calls `getNextTransactionID`, so the transaction id is
left unchanged. -/
def sendMDNSQuery (st : MDNSState) : MDNSState × Option (List Nat) :=
  match buildServiceName 128 with
  | none => (st, none)
  | some svc =>
    match buildMDNSQuery st.queryTransactionID 256 svc with
    | none => (st, none)
    | some pkt => ({ st with lastRequestedService := svc.take 127 }, some pkt)

/-- State-level response handler: `handleMDNSResponse` updates only the
persistent configuration. -/
def handleResponseS (st : MDNSState) (dgram : List Nat) : MDNSState × Option (List Nat) :=
  let r := handleMDNSResponse st.lastRequestedService st.discoveredConfig dgram
  ({ st with discoveredConfig := r.1 }, r.2)

/-- Final content of the decoder's output buffer when it walks the label list
`L` having already written `acc`: labels joined with dots, with a separating
dot after a non-empty `acc`. -/
def wfin (acc : List Nat) : List (List Nat) → List Nat
  | [] => acc
  | l :: L => if acc = [] then wfin l L else wfin (acc ++ 46 :: l) L

/-- A well-formed encoded name at a position: literal labels of length 1-63
lying inside the packet, compression jumps to in-bounds targets, terminating
at a root byte; the second index counts the pointer jumps taken. -/
inductive NameChain (p : List Nat) (ps : Nat) : Nat → Nat → Prop
  | root (pos : Nat) (h1 : pos < ps) (h2 : bget p pos = 0) : NameChain p ps pos 0
  | label (pos j : Nat) (h1 : pos < ps) (h2 : 1 ≤ bget p pos)
      (h3 : bget p pos ≤ 63) (h4 : pos + 1 + bget p pos ≤ ps)
      (h5 : NameChain p ps (pos + 1 + bget p pos) j) : NameChain p ps pos j
  | jump (pos j : Nat) (h1 : pos < ps) (h2 : pos + 1 < ps)
      (h3 : 192 ≤ bget p pos)
      (h4 : bget p pos % 64 * 256 + bget p (pos + 1) < ps)
      (h5 : NameChain p ps (bget p pos % 64 * 256 + bget p (pos + 1)) j) :
      NameChain p ps pos (j + 1)

/-- A walk that will encounter at least `k` more compression-pointer bytes
without exhausting the packet, the output buffer, or meeting a root or
invalid label first. `w` is the number of bytes already written to the output
buffer. -/
inductive PtrRun (p : List Nat) (ps nml : Nat) : Nat → Nat → Nat → Prop
  | last (pos w : Nat) (h1 : pos < ps) (h2 : w + 1 < nml) (h3 : pos + 1 < ps)
      (h4 : 192 ≤ bget p pos) : PtrRun p ps nml pos w 1
  | jump (pos w k : Nat) (h1 : pos < ps) (h2 : w + 1 < nml) (h3 : pos + 1 < ps)
      (h4 : 192 ≤ bget p pos)
      (h5 : bget p pos % 64 * 256 + bget p (pos + 1) < ps)
      (h6 : PtrRun p ps nml (bget p pos % 64 * 256 + bget p (pos + 1)) w k) :
      PtrRun p ps nml pos w (k + 1)
  | label (pos w k : Nat) (h1 : pos < ps) (h2 : w + 1 < nml) (h3 : 1 ≤ bget p pos)
      (h4 : bget p pos ≤ 63) (h5 : pos + 1 + bget p pos ≤ ps)
      (h6 : (if 0 < w then w + 1 else w) + bget p pos ≤ nml - 1)
      (h7 : PtrRun p ps nml (pos + 1 + bget p pos)
        ((if 0 < w then w + 1 else w) + bget p pos) k) :
      PtrRun p ps nml pos w k

/-- Wire encoding of the configured service name `_config._tcp.local`. -/
def svcEnc : List Nat :=
  [7] ++ strBytes "_config" ++ [4] ++ strBytes "_tcp" ++ [5] ++ strBytes "local" ++ [0]

/-- Wire encoding of the hostname `config-server.local`. -/
def hostEnc : List Nat :=
  [13] ++ strBytes "config-server" ++ [5] ++ strBytes "local" ++ [0]

/-- A fully valid response datagram: matching question, QR set, one SRV
record (port 5050, target config-server.local), one TXT record
(path=/config, version=1.0), one A record (192.168.1.21). -/
def fullResponse : List Nat :=
  [0x12, 0x34, 0x84, 0x00, 0x00, 0x01, 0x00, 0x03, 0, 0, 0, 0]
  ++ svcEnc ++ [0, 12, 0, 1]
  ++ [192, 12, 0, 33, 0, 1, 0, 0, 0, 120, 0, 27] ++ [0, 0, 0, 0, 19, 186] ++ hostEnc
  ++ [192, 12, 0, 16, 0, 1, 0, 0, 0, 120, 0, 25]
  ++ [12] ++ strBytes "path=/config" ++ [11] ++ strBytes "version=1.0"
  ++ [192, 12, 0, 1, 0, 1, 0, 0, 0, 120, 0, 4] ++ [192, 168, 1, 21]

/-- A response datagram carrying only the SRV record: its answer walk ends
without path and IP, so the descriptor must not be promoted. -/
def srvOnlyResponse : List Nat :=
  [0x12, 0x34, 0x84, 0x00, 0x00, 0x01, 0x00, 0x01, 0, 0, 0, 0]
  ++ svcEnc ++ [0, 12, 0, 1]
  ++ [192, 12, 0, 33, 0, 1, 0, 0, 0, 120, 0, 27] ++ [0, 0, 0, 0, 19, 186] ++ hostEnc

/-- A response datagram whose question names a different service. -/
def wrongNameResponse : List Nat :=
  [0x12, 0x34, 0x84, 0x00, 0x00, 0x01, 0x00, 0x01, 0, 0, 0, 0]
  ++ [5] ++ strBytes "wrong" ++ [0] ++ [0, 12, 0, 1]

/-- The state after the first query has been sent. -/
def sentState : MDNSState := (sendMDNSQuery initState).1

/-- The run of the response handler on the fully valid response, from the
state following the first sent query. -/
def c2Run : MDNSState × Option (List Nat) := handleResponseS sentState fullResponse

/-- The query packet produced at startup (transaction id 0x1234). -/
def initialQueryPacket : List Nat :=
  [18, 52, 0, 0, 0, 1, 0, 0, 0, 0, 0, 0] ++ svcEnc ++ [0, 12, 0, 1]

/-- A state whose descriptor has already been validated. -/
def validatedState : MDNSState :=
  ⟨0x1234, strBytes "_config._tcp.local", { initConfig with valid := true }⟩

/-! Encoder lemmas. -/

theorem splitOnDot_ne_nil (s : List Nat) : splitOnDot s ≠ [] := by
  cases s with
  | nil => simp [splitOnDot]
  | cons c rest =>
    simp only [splitOnDot]
    split
    · simp
    · cases h : splitOnDot rest <;> simp

theorem joinDots_splitOnDot (s : List Nat) : joinDots (splitOnDot s) = s := by
  induction s with
  | nil => rfl
  | cons c rest ih =>
    simp only [splitOnDot]
    by_cases hc : c = 46
    · subst hc
      simp only [if_pos rfl]
      cases h : splitOnDot rest with
      | nil => exact absurd h (splitOnDot_ne_nil rest)
      | cons t ts =>
        rw [h] at ih
        simp only [joinDots]
        cases ts <;> simp_all [joinDots]
    · rw [if_neg hc]
      cases h : splitOnDot rest with
      | nil => exact absurd h (splitOnDot_ne_nil rest)
      | cons t ts =>
        rw [h] at ih
        cases ts <;> simp_all [joinDots]

theorem mem_of_mem_splitOnDot {s : List Nat} {l : List Nat} {b : Nat}
    (hl : l ∈ splitOnDot s) (hb : b ∈ l) : b ∈ s := by
  induction s generalizing l with
  | nil =>
    simp only [splitOnDot, List.mem_singleton] at hl
    subst hl; cases hb
  | cons c rest ih =>
    simp only [splitOnDot] at hl
    by_cases hc : c = 46
    · rw [if_pos hc] at hl
      rcases List.mem_cons.mp hl with h | h
      · subst h; cases hb
      · exact List.mem_cons_of_mem _ (ih h hb)
    · rw [if_neg hc] at hl
      cases hsp : splitOnDot rest with
      | nil => exact absurd hsp (splitOnDot_ne_nil rest)
      | cons t ts =>
        rw [hsp] at hl
        rcases List.mem_cons.mp hl with h | h
        · subst h
          rcases List.mem_cons.mp hb with h2 | h2
          · exact h2 ▸ List.mem_cons_self _ _
          · exact List.mem_cons_of_mem _ (ih (hsp ▸ List.mem_cons_self t ts) h2)
        · exact List.mem_cons_of_mem _ (ih (hsp ▸ List.mem_cons_of_mem _ h) hb)

theorem encGo_shape (maxLen : Nat) :
    ∀ (L : List (List Nat)) (acc e : List Nat),
      encGo maxLen L acc = some e → e = acc ++ labelWire (dropEmptyFinal L) ++ [0]
  | [], acc, e => by
    simp only [encGo, dropEmptyFinal, labelWire, List.map_nil, List.flatten_nil,
      List.append_nil]
    split
    · intro h; cases h
    · intro h; simpa using h.symm
  | [last], acc, e => by
    intro h
    unfold encGo at h
    split at h
    · rename_i hlen
      have hnil : last = [] := List.eq_nil_of_length_eq_zero hlen
      split at h
      · cases h
      · cases h
        subst hnil
        simp [dropEmptyFinal, labelWire]
    · rename_i hlen
      have hne : last ≠ [] := fun hh => hlen (by simp [hh])
      split at h
      · cases h
      · split at h
        · cases h
        · cases h
          simp [dropEmptyFinal, if_neg hne, labelWire]
  | l :: l2 :: rest, acc, e => by
    simp only [encGo]
    split
    · intro h; cases h
    · split
      · intro h; cases h
      · intro h
        have ih := encGo_shape maxLen (l2 :: rest) (acc ++ l.length :: l) e h
        rw [ih]
        simp only [dropEmptyFinal, labelWire, List.map_cons, List.flatten_cons]
        simp

theorem encGo_labels (maxLen : Nat) :
    ∀ (L : List (List Nat)) (acc e : List Nat),
      encGo maxLen L acc = some e →
      ∀ l ∈ dropEmptyFinal L, 1 ≤ l.length ∧ l.length ≤ 63
  | [], _, _ => by intro _ l hl; simp [dropEmptyFinal] at hl
  | [last], acc, e => by
    intro h l hl
    by_cases hlen : last.length = 0
    · have hnil : last = [] := List.eq_nil_of_length_eq_zero hlen
      subst hnil
      simp [dropEmptyFinal] at hl
    · have hne : last ≠ [] := fun hh => hlen (by simp [hh])
      simp only [dropEmptyFinal, if_neg hne, List.mem_singleton] at hl
      subst hl
      simp only [encGo, if_neg hlen] at h
      split at h
      · cases h
      · split at h
        · cases h
        · rename_i h63 _
          omega
  | l :: l2 :: rest, acc, e => by
    simp only [encGo]
    split
    · intro h; cases h
    · rename_i hbad
      push_neg at hbad
      split
      · intro h; cases h
      · intro h
        have ih := encGo_labels maxLen (l2 :: rest) (acc ++ l.length :: l) e h
        intro m hm
        simp only [dropEmptyFinal] at hm
        rcases List.mem_cons.mp hm with h2 | h2
        · subst h2; omega
        · exact ih m h2

theorem encGo_none (maxLen : Nat) :
    ∀ (L : List (List Nat)) (acc : List Nat),
      ((∃ l ∈ L.dropLast, l = []) ∨ (∃ l ∈ L, 63 < l.length)) →
      encGo maxLen L acc = none
  | [], _, h => by simp at h
  | [last], acc, h => by
    have h63 : 63 < last.length := by
      rcases h with ⟨l, hl, _⟩ | ⟨l, hl, hlen⟩
      · simp at hl
      · simp only [List.mem_singleton] at hl; exact hl ▸ hlen
    simp only [encGo]
    rw [if_neg (by omega), if_pos h63]
  | l :: l2 :: rest, acc, h => by
    simp only [encGo]
    by_cases hbad : l.length = 0 ∨ 63 < l.length
    · rw [if_pos hbad]
    · rw [if_neg hbad]
      split
      · rfl
      · apply encGo_none maxLen (l2 :: rest)
        push_neg at hbad
        rcases h with ⟨m, hm, hme⟩ | ⟨m, hm, hmlen⟩
        · left
          refine ⟨m, ?_, hme⟩
          simp only [List.dropLast_cons_of_ne_nil (List.cons_ne_nil l2 rest)] at hm
          rcases List.mem_cons.mp hm with h2 | h2
          · exfalso; subst h2; subst hme; exact hbad.1 rfl
          · exact h2
        · right
          refine ⟨m, ?_, hmlen⟩
          rcases List.mem_cons.mp hm with h2 | h2
          · exfalso; subst h2; omega
          · exact h2

/-! Termination of the name decoder: between pointer jumps the read position
strictly increases toward the packet end, and at most 10 jumps are taken, so
the fuel budget of `decodeDNSName` is never exhausted. -/

theorem decodeAux_isSome (p : List Nat) (ps nml : Nat) :
    ∀ (fuel pos jumps : Nat) (jumped : Bool) (acc : List Nat) (nxt : Option Nat),
      (10 - jumps) * ps + (ps - pos) + 1 ≤ fuel → jumps ≤ 10 →
      (decodeAux p ps nml fuel pos jumps jumped acc nxt).isSome = true := by
  intro fuel
  induction fuel with
  | zero => intro pos jumps jumped acc nxt hb hj; omega
  | succ fuel ih =>
    intro pos jumps jumped acc nxt hb hj
    simp only [decodeAux]
    split
    · rename_i hcond
      obtain ⟨hpos, _⟩ := hcond
      split
      · simp
      · split
        · split
          · simp
          · split
            · simp
            · split
              · simp
              · rename_i hjc hpb
                apply ih
                · have e1 : 10 - (jumps + 1) = 9 - jumps := by omega
                  have e2 : (10 - jumps) * ps = (9 - jumps) * ps + ps := by
                    have e3 : 10 - jumps = (9 - jumps) + 1 := by omega
                    rw [e3, Nat.add_mul, Nat.one_mul]
                  rw [e1]
                  rw [e2] at hb
                  have hps : ps - (bget p pos % 64 * 256 + bget p (pos + 1)) ≤ ps :=
                    Nat.sub_le _ _
                  omega
                · omega
        · split
          · simp
          · split
            · simp
            · apply ih
              · generalize (10 - jumps) * ps = A at hb ⊢
                omega
              · exact hj
    · simp

theorem decodeDNSName_isSome (p : List Nat) (ps offset nml : Nat) :
    (decodeDNSName p ps offset nml).isSome = true := by
  unfold decodeDNSName
  split
  · simp
  · rename_i hoff
    apply decodeAux_isSome
    · unfold decodeFuel
      simp only [Nat.sub_zero]
      omega
    · omega

/-! Round-trip of the name codec: decoding an encoded name reproduces the
dotted name and consumes exactly the encoded bytes. -/

theorem bget_at (pre : List Nat) (x : Nat) (rest : List Nat) :
    bget (pre ++ x :: rest) pre.length = x % 256 := by
  unfold bget
  rw [List.getD_append_right _ _ _ _ (Nat.le_refl _), Nat.sub_self]
  rfl

theorem readBytes_at :
    ∀ (l pre rest : List Nat),
      readBytes (pre ++ l ++ rest) pre.length l.length = l.map (fun b => b % 256)
  | [], _, _ => rfl
  | b :: bs, pre, rest => by
    simp only [readBytes, List.map_cons, List.cons.injEq]
    refine ⟨?_, ?_⟩
    · have hx := bget_at pre b (bs ++ rest)
      simpa using hx
    · have ih := readBytes_at bs (pre ++ [b]) rest
      simp only [List.length_append, List.length_cons, List.length_nil] at ih
      simpa [List.append_assoc] using ih

theorem readBytes_len (p : List Nat) : ∀ (k off : Nat),
    (readBytes p off k).length = k
  | 0, _ => rfl
  | k + 1, off => by
    simp only [readBytes, List.length_cons]
    rw [readBytes_len p k (off + 1)]

theorem mapMod_eq_self : ∀ (l : List Nat), (∀ b ∈ l, b < 256) →
    l.map (fun b => b % 256) = l
  | [], _ => rfl
  | b :: bs, h => by
    simp only [List.map_cons, List.cons.injEq]
    exact ⟨Nat.mod_eq_of_lt (h b (List.mem_cons_self _ _)),
      mapMod_eq_self bs (fun x hx => h x (List.mem_cons_of_mem _ hx))⟩

theorem wfin_len : ∀ (L : List (List Nat)) (acc : List Nat),
    acc.length ≤ (wfin acc L).length
  | [], acc => Nat.le_refl _
  | l :: L, acc => by
    simp only [wfin]
    split
    · rename_i h; subst h; simp
    · calc acc.length ≤ (acc ++ 46 :: l).length := by simp
        _ ≤ _ := wfin_len L _

theorem wfin_of_ne_nil : ∀ (L : List (List Nat)) (acc : List Nat), acc ≠ [] →
    wfin acc L = acc ++ (if L = [] then [] else 46 :: joinDots L)
  | [], acc, _ => by simp [wfin]
  | l :: L, acc, hne => by
    simp only [wfin, if_neg hne]
    rw [wfin_of_ne_nil L (acc ++ 46 :: l) (by simp)]
    cases L with
    | nil => simp [joinDots]
    | cons l2 L2 => simp [joinDots]

theorem wfin_nil_eq : ∀ (L : List (List Nat)), (∀ l ∈ L, l ≠ []) →
    wfin [] L = joinDots L
  | [], _ => rfl
  | l :: L, h => by
    simp only [wfin, if_pos rfl]
    rw [wfin_of_ne_nil L l (h l (List.mem_cons_self _ _))]
    cases L with
    | nil => simp [joinDots]
    | cons l2 L2 => simp [joinDots]

theorem labelWire_len : ∀ (L : List (List Nat)), L.length ≤ (labelWire L).length
  | [] => Nat.le_refl _
  | l :: L => by
    simp only [labelWire, List.map_cons, List.flatten_cons, List.length_append,
      List.length_cons]
    have := labelWire_len L
    simp only [labelWire] at this
    omega

theorem decodeAux_wire (p : List Nat) (nml : Nat) :
    ∀ (L : List (List Nat)) (pre acc : List Nat) (fuel : Nat),
      p = pre ++ labelWire L ++ [0] →
      (∀ l ∈ L, 1 ≤ l.length ∧ l.length ≤ 63) →
      (∀ l ∈ L, ∀ b ∈ l, b < 256) →
      (wfin acc L).length + 2 ≤ nml →
      L.length + 1 ≤ fuel →
      decodeAux p p.length nml fuel pre.length 0 false acc none =
        some ⟨true, wfin acc L ++ [0], some p.length⟩
  | [], pre, acc, fuel, hp, _, _, hroom, hfuel => by
    cases fuel with
    | zero => omega
    | succ fuel =>
      have hplen : p.length = pre.length + 1 := by
        subst hp; simp [labelWire]
      have hb : bget p pre.length = 0 := by
        have := bget_at pre 0 []
        simp only [labelWire, List.map_nil, List.flatten_nil, List.nil_append] at hp
        rw [hp]; simpa using this
      simp only [wfin] at hroom ⊢
      simp only [decodeAux]
      rw [if_pos ⟨by omega, by omega⟩, hb, if_pos rfl]
      simp [hplen]
  | l :: L, pre, acc, fuel, hp, hlab, hbyte, hroom, hfuel => by
    cases fuel with
    | zero => simp at hfuel
    | succ fuel =>
      have hl1 : 1 ≤ l.length := (hlab l (List.mem_cons_self _ _)).1
      have hl63 : l.length ≤ 63 := (hlab l (List.mem_cons_self _ _)).2
      have hwire : labelWire (l :: L) = l.length :: (l ++ labelWire L) := by
        simp [labelWire]
      have hb : bget p pre.length = l.length := by
        have hform : p = pre ++ l.length :: (l ++ (labelWire L ++ [0])) := by
          rw [hp, hwire]; simp
        rw [hform, bget_at, Nat.mod_eq_of_lt (by omega)]
      -- the state after the dot and label copy
      have hstep : wfin acc (l :: L) =
          wfin ((if acc = [] then acc else acc ++ [46]) ++ l) L := by
        simp only [wfin]
        split
        · rename_i h; rw [h]; simp
        · simp
      have hroom3 : (if acc = [] then acc else acc ++ [46]).length + l.length + 2 ≤ nml := by
        have h1 := wfin_len L ((if acc = [] then acc else acc ++ [46]) ++ l)
        rw [hstep] at hroom
        simp only [List.length_append] at h1
        omega
      have haccroom : acc.length + 1 < nml := by
        have h1 := wfin_len (l :: L) acc
        omega
      have hposlt : pre.length < p.length := by
        rw [hp]
        simp only [List.length_append, List.length_cons, List.length_nil]
        omega
      simp only [decodeAux]
      rw [if_pos ⟨hposlt, haccroom⟩]
      rw [hb, if_neg (by omega), if_neg (by omega), if_neg (by omega)]
      have hacc1 : dotAcc nml acc = if acc = [] then acc else acc ++ [46] := by
        unfold dotAcc
        by_cases h : acc = []
        · subst h; simp
        · rw [if_pos ⟨List.length_pos.mpr h, haccroom⟩, if_neg h]
      rw [hacc1]
      have hnotover : ¬ (p.length < pre.length + 1 + l.length) := by
        rw [hp, hwire]
        simp only [List.length_append, List.length_cons]
        omega
      rw [if_neg hnotover]
      have hk : min l.length
          (nml - 1 - (if acc = [] then acc else acc ++ [46]).length) = l.length := by
        apply Nat.min_eq_left
        omega
      rw [hk]
      have hread : readBytes p (pre.length + 1) l.length = l := by
        have hpsplit : p = (pre ++ [l.length]) ++ l ++ (labelWire L ++ [0]) := by
          rw [hp, hwire]; simp
        have hr := readBytes_at l (pre ++ [l.length]) (labelWire L ++ [0])
        simp only [List.length_append, List.length_cons, List.length_nil] at hr
        rw [← hpsplit] at hr
        rw [hr]
        exact mapMod_eq_self l (hbyte l (List.mem_cons_self _ _))
      rw [hread]
      have hih := decodeAux_wire p nml L (pre ++ l.length :: l)
        ((if acc = [] then acc else acc ++ [46]) ++ l) fuel
        (by rw [hp, hwire]; simp)
        (fun m hm => hlab m (List.mem_cons_of_mem _ hm))
        (fun m hm => hbyte m (List.mem_cons_of_mem _ hm))
        (by rw [← hstep]; exact hroom)
        (by simp only [List.length_cons] at hfuel; omega)
      have hlen2 : (pre ++ l.length :: l).length = pre.length + 1 + l.length := by
        simp only [List.length_append, List.length_cons]
        omega
      rw [hlen2] at hih
      rw [hstep]
      exact hih

/-! Compression-pointer chains: a well-formed name reachable with `j` jumps
decodes successfully; a walk that encounters an eleventh pointer fails. -/

theorem nameChain_lt {p : List Nat} {ps pos j : Nat} (h : NameChain p ps pos j) :
    pos < ps := by
  cases h <;> assumption

theorem dotAcc_le (nml : Nat) (acc : List Nat) :
    acc.length ≤ (dotAcc nml acc).length ∧ (dotAcc nml acc).length ≤ acc.length + 1 := by
  unfold dotAcc
  split <;> simp

/-- A call whose output buffer is already saturated returns success at once. -/
theorem decodeAux_sat (p : List Nat) (ps nml : Nat)
    (fuel pos jumps : Nat) (jumped : Bool) (acc : List Nat) (nxt : Option Nat)
    (out : DecodeOut) (hlen : nml ≤ acc.length + 1)
    (heq : decodeAux p ps nml fuel pos jumps jumped acc nxt = some out) :
    out.ok = true := by
  cases fuel with
  | zero => cases heq
  | succ fuel =>
    simp only [decodeAux] at heq
    split at heq
    · rename_i hcond; exfalso; omega
    · cases heq; rfl

theorem decodeAux_chain_ok (p : List Nat) (ps nml : Nat) :
    ∀ {pos j : Nat}, NameChain p ps pos j →
    ∀ jumps : Nat, jumps + j ≤ 10 →
    ∀ (fuel : Nat) (jumped : Bool) (acc : List Nat) (nxt : Option Nat) (out : DecodeOut),
      decodeAux p ps nml fuel pos jumps jumped acc nxt = some out → out.ok = true := by
  intro pos j hc
  induction hc with
  | root pos h1 h2 =>
    intro jumps hj fuel jumped acc nxt out heq
    cases fuel with
    | zero => cases heq
    | succ fuel =>
      simp only [decodeAux] at heq
      repeat' first
        | (cases heq; rfl)
        | split at heq
  | label pos j h1 h2 h3 h4 h5 ih =>
    intro jumps hj fuel jumped acc nxt out heq
    cases fuel with
    | zero => cases heq
    | succ fuel =>
      simp only [decodeAux] at heq
      repeat' first
        | (cases heq; rfl)
        | (exfalso; omega)
        | (rcases Nat.lt_or_ge (nml - 1 - (dotAcc nml acc).length) (bget p pos)
            with hklt | hkge
           · rw [Nat.min_eq_right (Nat.le_of_lt hklt)] at heq
             exact decodeAux_sat p ps nml _ _ _ _ _ _ _
               (by rw [List.length_append, readBytes_len]; omega) heq
           · rw [Nat.min_eq_left hkge] at heq
             exact ih jumps hj _ _ _ _ _ heq)
        | split at heq
  | jump pos j h1 h2 h3 h4 h5 ih =>
    intro jumps hj fuel jumped acc nxt out heq
    cases fuel with
    | zero => cases heq
    | succ fuel =>
      simp only [decodeAux] at heq
      repeat' first
        | (cases heq; rfl)
        | (exfalso; omega)
        | (exact ih (jumps + 1) (by omega) _ _ _ _ _ heq)
        | split at heq

theorem decodeAux_ptrrun_fail (p : List Nat) (ps nml : Nat) :
    ∀ {pos w k : Nat}, PtrRun p ps nml pos w k →
    ∀ jumps : Nat, 11 ≤ jumps + k →
    ∀ (fuel : Nat) (jumped : Bool) (acc : List Nat) (nxt : Option Nat) (out : DecodeOut),
      acc.length = w →
      decodeAux p ps nml fuel pos jumps jumped acc nxt = some out → out.ok = false := by
  intro pos w k hc
  induction hc with
  | last pos w h1 h2 h3 h4 =>
    intro jumps hj fuel jumped acc nxt out hacc heq
    cases fuel with
    | zero => cases heq
    | succ fuel =>
      simp only [decodeAux] at heq
      repeat' first
        | (cases heq; rfl)
        | (exfalso; omega)
        | split at heq
  | jump pos w k h1 h2 h3 h4 h5 h6 ih =>
    intro jumps hj fuel jumped acc nxt out hacc heq
    cases fuel with
    | zero => cases heq
    | succ fuel =>
      simp only [decodeAux] at heq
      repeat' first
        | (cases heq; rfl)
        | (exfalso; omega)
        | (exact ih (jumps + 1) (by omega) _ _ _ _ _ hacc heq)
        | split at heq
  | label pos w k h1 h2 h3 h4 h5 h6 h7 ih =>
    intro jumps hj fuel jumped acc nxt out hacc heq
    subst hacc
    have hd : (dotAcc nml acc).length =
        if 0 < acc.length then acc.length + 1 else acc.length := by
      unfold dotAcc
      by_cases h0 : 0 < acc.length
      · rw [if_pos ⟨h0, h2⟩, if_pos h0]; simp
      · rw [if_neg (fun hc2 => h0 hc2.1), if_neg h0]
    cases fuel with
    | zero => cases heq
    | succ fuel =>
      simp only [decodeAux] at heq
      repeat' first
        | (cases heq; rfl)
        | (exfalso; omega)
        | (rw [Nat.min_eq_left (by omega : bget p pos ≤
              nml - 1 - (dotAcc nml acc).length)] at heq
           ; exact ih jumps (by omega) _ _ _ _ _
              (by rw [List.length_append, readBytes_len, hd]) heq)
        | split at heq

theorem ptrRun_lt {p : List Nat} {ps nml pos w k : Nat}
    (h : PtrRun p ps nml pos w k) : pos < ps := by
  cases h <;> assumption

/-- A name whose chain is well formed and takes at most ten jumps decodes
successfully (possibly truncated into the output buffer). -/
theorem decodeDNSName_chain_ok (p : List Nat) (ps nml pos j : Nat)
    (hc : NameChain p ps pos j) (hj : j ≤ 10) :
    ∃ out, decodeDNSName p ps pos nml = some out ∧ out.ok = true := by
  have hlt := nameChain_lt hc
  unfold decodeDNSName
  rw [if_neg (by omega)]
  have hs := decodeAux_isSome p ps nml (decodeFuel ps) pos 0 false [] none
    (by unfold decodeFuel; simp only [Nat.sub_zero]; omega) (by omega)
  obtain ⟨out, hout⟩ := Option.isSome_iff_exists.mp hs
  exact ⟨out, hout, decodeAux_chain_ok p ps nml hc 0 (by omega) _ _ _ _ _ hout⟩

/-- A walk that meets an eleventh compression pointer fails. -/
theorem decodeDNSName_ptrloop (p : List Nat) (ps nml pos : Nat)
    (hr : PtrRun p ps nml pos 0 11) :
    ∃ out, decodeDNSName p ps pos nml = some out ∧ out.ok = false := by
  have hlt := ptrRun_lt hr
  unfold decodeDNSName
  rw [if_neg (by omega)]
  have hs := decodeAux_isSome p ps nml (decodeFuel ps) pos 0 false [] none
    (by unfold decodeFuel; simp only [Nat.sub_zero]; omega) (by omega)
  obtain ⟨out, hout⟩ := Option.isSome_iff_exists.mp hs
  exact ⟨out, hout, decodeAux_ptrrun_fail p ps nml hr 0 (by omega) (decodeFuel ps)
    false [] none out rfl hout⟩

/-! Frame and monotonicity lemmas for the answer-record walk and the
response handler. -/

theorem parseAnswerLoop_valid (p : List Nat) (ps : Nat) :
    ∀ (rem pos : Nat) (cfg : DiscoveredConfig),
      ((parseAnswerLoop p ps rem pos cfg).2).valid = cfg.valid
  | 0, _, _ => rfl
  | rem + 1, pos, cfg => by
    simp only [parseAnswerLoop]
    split
    · split
      · rfl
      · split
        · rfl
        · split
          · rfl
          · split
            · rfl
            · split
              · rfl
              · rw [parseAnswerLoop_valid p ps rem _ _]
                split
                · rfl
                · split
                  · rfl
                  · split
                    · rfl
                    · rfl
    · rfl

theorem parseAnswerRecords_valid_pair (p : List Nat) (ps q a : Nat)
    (cfg : DiscoveredConfig) (ok : Bool) (cfg2 : DiscoveredConfig)
    (heq : parseAnswerRecords p ps q a cfg = (ok, cfg2)) (h : cfg.valid = true) :
    cfg2.valid = true := by
  have hv := parseAnswerLoop_valid p ps a q cfg
  unfold parseAnswerRecords at heq
  split at heq
  · rename_i cfg3 hl
    rw [hl] at hv
    cases heq
    rw [hv]; exact h
  · rename_i cfg3 hl
    rw [hl] at hv
    split at heq
    · cases heq; rfl
    · cases heq
      rw [hv]; exact h

theorem parseAnswerRecords_gate_pair (p : List Nat) (ps q a : Nat)
    (cfg : DiscoveredConfig) (ok : Bool) (cfg2 : DiscoveredConfig)
    (heq : parseAnswerRecords p ps q a cfg = (ok, cfg2)) (h : cfg2.valid = true) :
    cfg.valid = true ∨
      (0 < cfg2.port ∧ cfg2.path.getD 0 0 ≠ 0 ∧ cfg2.ipStr.getD 0 0 ≠ 0) := by
  have hv := parseAnswerLoop_valid p ps a q cfg
  unfold parseAnswerRecords at heq
  split at heq
  · rename_i cfg3 hl
    rw [hl] at hv
    cases heq
    left; rw [← hv]; exact h
  · rename_i cfg3 hl
    rw [hl] at hv
    split at heq
    · rename_i hcond
      cases heq
      right
      exact hcond
    · cases heq
      left; rw [← hv]; exact h

theorem validate_eq_name (p : List Nat) (ps : Nat) (svc : List Nat)
    (h : validateResponseService p ps svc = true) : questionName p ps = cstr svc := by
  unfold validateResponseService at h
  split at h
  · cases h
  · exact eq_of_beq h

/-- A response handler run that reaches neither answer-walk branch leaves the
configuration untouched; this lemma family covers the three early returns. -/
theorem handleMDNSResponse_short (svc : List Nat) (cfg : DiscoveredConfig)
    (d : List Nat) (h : d.length < 12) :
    handleMDNSResponse svc cfg d = (cfg, none) := by
  unfold handleMDNSResponse
  rw [if_pos h]

theorem handleMDNSResponse_name_mismatch (svc : List Nat) (cfg : DiscoveredConfig)
    (d : List Nat)
    (h : questionName (d.take 256) (d.take 256).length ≠ cstr svc) :
    handleMDNSResponse svc cfg d = (cfg, none) := by
  have hval : validateResponseService (d.take 256) (d.take 256).length svc = false := by
    rcases Bool.eq_false_or_eq_true
      (validateResponseService (d.take 256) (d.take 256).length svc) with hv | hv
    · exact absurd (validate_eq_name _ _ _ hv) h
    · exact hv
  simp only [handleMDNSResponse]
  rw [if_pos hval]
  split
  · rfl
  · split
    · rfl
    · rfl

theorem handleMDNSResponse_qr_clear (svc : List Nat) (cfg : DiscoveredConfig)
    (d : List Nat)
    (h : bget (d.take 256) 2 * 256 + bget (d.take 256) 3 < 32768) :
    handleMDNSResponse svc cfg d = (cfg, none) := by
  simp only [handleMDNSResponse]
  rw [if_pos h]
  split
  · rfl
  · split
    · rfl
    · split
      · rfl
      · rfl

theorem handleMDNSResponse_valid_mono (svc : List Nat) (cfg : DiscoveredConfig)
    (d : List Nat) (r : DiscoveredConfig × Option (List Nat))
    (heq : handleMDNSResponse svc cfg d = r) (h : cfg.valid = true) :
    r.1.valid = true := by
  simp only [handleMDNSResponse] at heq
  repeat' split at heq
  all_goals first
    | (cases heq; exact h)
    | (rename_i heq2
       cases heq
       exact parseAnswerRecords_valid_pair _ _ _ _ _ _ _ heq2 h)

theorem handleMDNSResponse_gate (svc : List Nat) (cfg : DiscoveredConfig)
    (d : List Nat) (r : DiscoveredConfig × Option (List Nat))
    (heq : handleMDNSResponse svc cfg d = r) (h : r.1.valid = true) :
    cfg.valid = true ∨
      (0 < r.1.port ∧ r.1.path.getD 0 0 ≠ 0 ∧ r.1.ipStr.getD 0 0 ≠ 0) := by
  simp only [handleMDNSResponse] at heq
  repeat' split at heq
  all_goals first
    | (cases heq; exact Or.inl h)
    | (rename_i heq2
       cases heq
       exact parseAnswerRecords_gate_pair _ _ _ _ _ _ _ heq2 h)

theorem dropEmptyFinal_eq_self : ∀ (L : List (List Nat)), (∀ l ∈ L, l ≠ []) →
    dropEmptyFinal L = L
  | [], _ => rfl
  | [l], h => by
    simp only [dropEmptyFinal, if_neg (h l (List.mem_cons_self _ _))]
  | l :: l2 :: L, h => by
    simp only [dropEmptyFinal, List.cons.injEq, true_and]
    exact dropEmptyFinal_eq_self (l2 :: L) (fun m hm => h m (List.mem_cons_of_mem _ hm))

theorem encodeDomainName_shape (name : List Nat) (m : Nat) (e : List Nat)
    (h : encodeDomainName name m = some e) :
    e = labelWire (dropEmptyFinal (splitOnDot name)) ++ [0] := by
  unfold encodeDomainName at h
  split at h
  · cases h
  · have := encGo_shape m (splitOnDot name) [] e h
    simpa using this

theorem encodeDomainName_labels (name : List Nat) (m : Nat) (e : List Nat)
    (h : encodeDomainName name m = some e) :
    ∀ l ∈ dropEmptyFinal (splitOnDot name), 1 ≤ l.length ∧ l.length ≤ 63 := by
  unfold encodeDomainName at h
  split at h
  · cases h
  · exact encGo_labels m (splitOnDot name) [] e h

/-! The ten claims. -/

/-- C1 counterexample: a response carrying only an SRV record fails the
final required-fields validation (the descriptor stays invalid), yet the
persistent configuration is changed: the walk wrote the SRV port and
hostname directly into it, so there is no local scratch structure. -/
theorem C1_counterexample :
    (handleMDNSResponse (strBytes "_config._tcp.local") initConfig
      srvOnlyResponse).1 ≠ initConfig ∧
    (handleMDNSResponse (strBytes "_config._tcp.local") initConfig
      srvOnlyResponse).1.valid = false := by
  decide

/-- C1 (amended): the answer walk writes candidate fields directly into the
persistent configuration, so a datagram whose walk does not end with
port > 0, non-empty path and non-empty IP string may still leave partial
fields modified; only the valid flag is gated: whenever the handler leaves
the flag set, either it was already set, or the resulting descriptor has
port > 0, a non-empty path and a non-empty IP string. -/
theorem C1_amended (svc : List Nat) (cfg : DiscoveredConfig) (d : List Nat)
    (h : (handleMDNSResponse svc cfg d).1.valid = true) :
    cfg.valid = true ∨
      (0 < (handleMDNSResponse svc cfg d).1.port ∧
        (handleMDNSResponse svc cfg d).1.path.getD 0 0 ≠ 0 ∧
        (handleMDNSResponse svc cfg d).1.ipStr.getD 0 0 ≠ 0) :=
  handleMDNSResponse_gate svc cfg d _ rfl h

/-- Witness for C1 (amended), at the fully valid response from the invalid
startup configuration. -/
theorem C1_amended_witness :
    initConfig.valid = true ∨
      (0 < (handleMDNSResponse (strBytes "_config._tcp.local") initConfig
          fullResponse).1.port ∧
        (handleMDNSResponse (strBytes "_config._tcp.local") initConfig
          fullResponse).1.path.getD 0 0 ≠ 0 ∧
        (handleMDNSResponse (strBytes "_config._tcp.local") initConfig
          fullResponse).1.ipStr.getD 0 0 ≠ 0) :=
  C1_amended (strBytes "_config._tcp.local") initConfig fullResponse (by decide)

/-- C2: the fully valid response (one SRV record with port 5050 and target
config-server.local, one TXT record with path=/config and version=1.0, one
A record with 192.168.1.21), received after a query was sent, promotes a
descriptor with valid=true, port=5050, hostname "config-server.local",
path "/config", version "1.0", ipStr "192.168.1.21", and the synthesized
URL is http://192.168.1.21:5050/config. -/
theorem C2_full_response :
    c2Run.1.discoveredConfig.valid = true ∧
    c2Run.1.discoveredConfig.port = 5050 ∧
    cstr c2Run.1.discoveredConfig.hostname = strBytes "config-server.local" ∧
    cstr c2Run.1.discoveredConfig.path = strBytes "/config" ∧
    cstr c2Run.1.discoveredConfig.version = strBytes "1.0" ∧
    cstr c2Run.1.discoveredConfig.ipStr = strBytes "192.168.1.21" ∧
    c2Run.2 = some (strBytes "http://192.168.1.21:5050/config") := by
  decide

/-- C3: decoding an encoded valid dotted name (labels of 1 to 63 bytes,
encoded form accepted by the encoder) from the start of the encoded bytes
with a large enough output buffer reproduces the name exactly (the output
buffer holds the name followed by its terminator), and the decoder consumes
exactly the encoder's returned length. -/
theorem C3_roundtrip (X : List Nat) (maxLen nml : Nat) (e : List Nat)
    (henc : encodeDomainName X maxLen = some e)
    (hlab : ∀ l ∈ splitOnDot X, 1 ≤ l.length ∧ l.length ≤ 63)
    (hbyte : ∀ b ∈ X, b < 256)
    (hbuf : X.length + 2 ≤ nml) :
    decodeDNSName e e.length 0 nml = some ⟨true, X ++ [0], some e.length⟩ := by
  have hne : ∀ l ∈ splitOnDot X, l ≠ [] := by
    intro l hl hnil
    have := (hlab l hl).1
    rw [hnil] at this
    simp at this
  have hshape : e = labelWire (splitOnDot X) ++ [0] := by
    rw [encodeDomainName_shape X maxLen e henc, dropEmptyFinal_eq_self _ hne]
  have hX : joinDots (splitOnDot X) = X := joinDots_splitOnDot X
  have hwlen : (wfin [] (splitOnDot X)).length + 2 ≤ nml := by
    rw [wfin_nil_eq _ hne, hX]
    exact hbuf
  have hfuel : (splitOnDot X).length + 1 ≤ decodeFuel e.length := by
    have h1 := labelWire_len (splitOnDot X)
    have h2 : e.length = (labelWire (splitOnDot X)).length + 1 := by
      rw [hshape]; simp
    unfold decodeFuel
    omega
  have hw := decodeAux_wire e nml (splitOnDot X) [] [] (decodeFuel e.length)
    (by simpa using hshape)
    hlab
    (fun l hl b hb => hbyte b (mem_of_mem_splitOnDot hl hb))
    hwlen hfuel
  rw [wfin_nil_eq _ hne, hX] at hw
  have hlen0 : 0 < e.length := by rw [hshape]; simp
  unfold decodeDNSName
  rw [if_neg (by omega)]
  simpa using hw

/-- Witness for C3, at the name "ab.cd" with a 256-byte encoding buffer and
a 128-byte decoding buffer. -/
theorem C3_roundtrip_witness :
    decodeDNSName [2, 97, 98, 2, 99, 100, 0] 7 0 128 =
      some ⟨true, strBytes "ab.cd" ++ [0], some 7⟩ := by
  have h := C3_roundtrip (strBytes "ab.cd") 256 128 [2, 97, 98, 2, 99, 100, 0]
    (by decide) (by decide) (by decide) (by decide)
  simpa using h

/-- C4: contrary to the claim, two consecutive successful sendMDNSQuery
calls produce byte-identical packets: the transaction id field stays at
0x1234 = [18, 52] because the code never calls getNextTransactionID. The
question sections are identical, as the claim also states. -/
theorem C4_constant_tid :
    (sendMDNSQuery initState).2 = (sendMDNSQuery (sendMDNSQuery initState).1).2 ∧
    (sendMDNSQuery initState).2 = some initialQueryPacket ∧
    initialQueryPacket.take 2 = [18, 52] := by
  decide

/-- C5: a walk meeting an eleventh compression pointer fails, and a
well-formed chain of at most ten jumps ending at a valid root label decodes
successfully. -/
theorem C5_pointer_chain :
    (∀ (p : List Nat) (ps nml pos : Nat), PtrRun p ps nml pos 0 11 →
      ∃ out, decodeDNSName p ps pos nml = some out ∧ out.ok = false) ∧
    (∀ (p : List Nat) (ps nml pos j : Nat), NameChain p ps pos j → j ≤ 10 →
      ∃ out, decodeDNSName p ps pos nml = some out ∧ out.ok = true) :=
  ⟨fun p ps nml pos hr => decodeDNSName_ptrloop p ps nml pos hr,
   fun p ps nml pos j hc hj => decodeDNSName_chain_ok p ps nml pos j hc hj⟩

/-- Witness for C5: the self-referential pointer packet [192, 0] loops and
fails; the packet [1, 97, 0] holds the plain name "a" and decodes. -/
theorem C5_pointer_chain_witness :
    (∃ out, decodeDNSName [192, 0] 2 0 16 = some out ∧ out.ok = false) ∧
    (∃ out, decodeDNSName [1, 97, 0] 3 0 16 = some out ∧ out.ok = true) := by
  constructor
  · apply C5_pointer_chain.1 [192, 0] 2 16 0
    have hstep : ∀ k, PtrRun [192, 0] 2 16 0 0 k → PtrRun [192, 0] 2 16 0 0 (k + 1) :=
      fun k hk => PtrRun.jump 0 0 k (by decide) (by decide) (by decide) (by decide)
        (by decide) hk
    have h1 : PtrRun [192, 0] 2 16 0 0 1 :=
      PtrRun.last 0 0 (by decide) (by decide) (by decide) (by decide)
    exact hstep _ (hstep _ (hstep _ (hstep _ (hstep _ (hstep _ (hstep _ (hstep _
      (hstep _ (hstep _ h1)))))))))
  · apply C5_pointer_chain.2 [1, 97, 0] 3 16 0 0 _ (by omega)
    exact NameChain.label 0 0 (by decide) (by decide) (by decide) (by decide)
      (NameChain.root 2 (by decide) (by decide))

/-- C6: a datagram shorter than 12 bytes, a datagram with the QR bit clear,
and a datagram whose question name differs from the last requested service
are all ignored: the handler returns with the configuration unchanged and no
URL. -/
theorem C6_ignored (svc : List Nat) (cfg : DiscoveredConfig) (d : List Nat) :
    (d.length < 12 → handleMDNSResponse svc cfg d = (cfg, none)) ∧
    (bget (d.take 256) 2 * 256 + bget (d.take 256) 3 < 32768 →
      handleMDNSResponse svc cfg d = (cfg, none)) ∧
    (questionName (d.take 256) (d.take 256).length ≠ cstr svc →
      handleMDNSResponse svc cfg d = (cfg, none)) :=
  ⟨handleMDNSResponse_short svc cfg d,
   handleMDNSResponse_qr_clear svc cfg d,
   handleMDNSResponse_name_mismatch svc cfg d⟩

/-- Witness for C6: an empty datagram, an all-zero 12-byte datagram (QR bit
clear), and a response naming the service "wrong". -/
theorem C6_ignored_witness :
    handleMDNSResponse (strBytes "_config._tcp.local") initConfig []
      = (initConfig, none) ∧
    handleMDNSResponse (strBytes "_config._tcp.local") initConfig
      (List.replicate 12 0) = (initConfig, none) ∧
    handleMDNSResponse (strBytes "_config._tcp.local") initConfig
      wrongNameResponse = (initConfig, none) :=
  ⟨(C6_ignored _ _ _).1 (by decide),
   (C6_ignored _ _ _).2.1 (by decide),
   (C6_ignored _ _ _).2.2 (by decide)⟩

/-- C7 counterexample: the name "a." has an empty final label (trailing
dot), yet encodeDomainName accepts it, silently dropping the empty label,
and returns the 3-byte encoding of "a" instead of the error 0. -/
theorem C7_counterexample :
    splitOnDot (strBytes "a.") = [[97], []] ∧
    encodeDomainName (strBytes "a.") 256 = some [1, 97, 0] := by
  decide

/-- C7 (amended): encodeDomainName returns the error 0 for every name with
an empty non-final label (leading or doubled dot) and for every name with a
label longer than 63 bytes; an empty final label (trailing dot) is instead
silently dropped. -/
theorem C7_amended (name : List Nat) (maxLen : Nat)
    (h : (∃ l ∈ (splitOnDot name).dropLast, l = []) ∨
         (∃ l ∈ splitOnDot name, 63 < l.length)) :
    encodeDomainName name maxLen = none := by
  unfold encodeDomainName
  split
  · rfl
  · exact encGo_none maxLen (splitOnDot name) [] h

/-- Witness for C7 (amended): a leading dot and a single 64-byte label both
fail. -/
theorem C7_amended_witness :
    encodeDomainName (strBytes ".a") 256 = none ∧
    encodeDomainName (List.replicate 64 97) 256 = none :=
  ⟨C7_amended (strBytes ".a") 256 (by decide),
   C7_amended (List.replicate 64 97) 256 (by decide)⟩

/-- C8: every packet buildMDNSQuery produces is exactly the 12-byte header
(transaction id big-endian in bytes 0-1, FLAGS=0, QDCOUNT=1, other counts
0), followed by the length-prefixed label encoding of the service name
terminated by a root label, followed by QTYPE=12 and QCLASS=1 big-endian;
the returned length is the total byte count. -/
theorem C8_query_structure (tid maxLen : Nat) (svc pkt : List Nat)
    (h : buildMDNSQuery tid maxLen svc = some pkt) :
    ∃ enc, encodeDomainName svc (maxLen - 12) = some enc ∧
      enc = labelWire (dropEmptyFinal (splitOnDot svc)) ++ [0] ∧
      (∀ l ∈ dropEmptyFinal (splitOnDot svc), 1 ≤ l.length ∧ l.length ≤ 63) ∧
      pkt = [tid / 256 % 256, tid % 256, 0, 0, 0, 1, 0, 0, 0, 0, 0, 0]
        ++ enc ++ [0, 12, 0, 1] ∧
      pkt.length = 12 + enc.length + 4 := by
  unfold buildMDNSQuery at h
  split at h
  · cases h
  · split at h
    · cases h
    · rename_i enc henc
      split at h
      · cases h
      · cases h
        refine ⟨enc, henc, encodeDomainName_shape svc (maxLen - 12) enc henc,
          encodeDomainName_labels svc (maxLen - 12) enc henc, rfl, ?_⟩
        simp only [List.length_append, List.length_cons, List.length_nil]

/-- Witness for C8, at the startup transaction id and the configured
service name. -/
theorem C8_query_structure_witness :
    ∃ enc, encodeDomainName (strBytes "_config._tcp.local") (256 - 12) = some enc ∧
      enc = labelWire (dropEmptyFinal (splitOnDot (strBytes "_config._tcp.local")))
        ++ [0] ∧
      (∀ l ∈ dropEmptyFinal (splitOnDot (strBytes "_config._tcp.local")),
        1 ≤ l.length ∧ l.length ≤ 63) ∧
      initialQueryPacket = [4660 / 256 % 256, 4660 % 256, 0, 0, 0, 1, 0, 0, 0, 0, 0, 0]
        ++ enc ++ [0, 12, 0, 1] ∧
      initialQueryPacket.length = 12 + enc.length + 4 :=
  C8_query_structure 4660 256 (strBytes "_config._tcp.local") initialQueryPacket
    (by decide)

/-- C9: the valid flag starts false at startup; handling any later datagram
preserves a set flag (it is never cleared), and sending a query leaves the
persistent configuration untouched. -/
theorem C9_valid_sticky :
    initState.discoveredConfig.valid = false ∧
    (∀ (st : MDNSState) (d : List Nat), st.discoveredConfig.valid = true →
      ((handleResponseS st d).1).discoveredConfig.valid = true) ∧
    (∀ st : MDNSState, ((sendMDNSQuery st).1).discoveredConfig = st.discoveredConfig) := by
  refine ⟨rfl, ?_, ?_⟩
  · intro st d h
    change (handleMDNSResponse st.lastRequestedService st.discoveredConfig d).1.valid
      = true
    exact handleMDNSResponse_valid_mono _ _ _ _ rfl h
  · intro st
    unfold sendMDNSQuery
    rfl

/-- Witness for C9, at a state whose descriptor is already valid and an
empty datagram. -/
theorem C9_valid_sticky_witness :
    ((handleResponseS validatedState []).1).discoveredConfig.valid = true :=
  C9_valid_sticky.2.1 validatedState [] (by decide)

/-- C10: decodeDNSName is total: on every packet, packet size, start offset
and output capacity the fuelled walk terminates with an answer (success or
failure), because pointer jumps are capped at ten and the position otherwise
strictly advances. -/
theorem C10_decode_total (p : List Nat) (ps offset nml : Nat) :
    (decodeDNSName p ps offset nml).isSome = true :=
  decodeDNSName_isSome p ps offset nml

end MDNS
